import Mathlib

/-!
# Verification of the hash-chained medical-record ledger

A shallow embedding of the ledger core of `blockchain.py` (the
Patient-Treatment forgery detection system): block construction, chained
hashing, persistence with backup, integrity verification and tamper
detection.  The impure primitives of the source (the SHA-256 hex digest,
`time.ctime`, `strftime`, and JSON (de)serialization) are collected in an
`Env` record of abstract functions; timestamps are modelled by their
rendered decimal string, which is the only way the source ever consumes
them (interpolation into the hashed data string and storage).  File I/O is
modelled by a `Store` of optional byte strings, and a possible I/O error
on save by an explicit boolean flag standing for the exception caught by
`save_chain`'s `except` clause.
-/

namespace MedLedger

/-! ## Injectivity of decimal rendering

Python renders the block index into the hashed data string with `str(int)`,
i.e. decimal notation; the embedding uses `Nat.repr`, which is also decimal
notation.  We prove `Nat.repr` injective by exhibiting a left inverse that
folds the decimal digits back into a number. -/

/-- Numeric value of a decimal digit character, the left inverse of
`Nat.digitChar` on digits. -/
def charDigit (c : Char) : Nat := c.toNat - 48

/-- Fold a most-significant-first list of decimal digit characters back
into the number it denotes. -/
def decodeDec (l : List Char) : Nat := l.foldl (fun a c => a * 10 + charDigit c) 0

lemma charDigit_digitChar : ∀ d : Nat, d < 10 → charDigit (Nat.digitChar d) = d := by
  decide

lemma toDigitsCore_append : ∀ (f n : Nat) (acc : List Char),
    Nat.toDigitsCore 10 f n acc = Nat.toDigitsCore 10 f n [] ++ acc := by
  intro f
  induction f with
  | zero => intro n acc; simp [Nat.toDigitsCore]
  | succ f ih =>
    intro n acc
    simp only [Nat.toDigitsCore]
    by_cases h : n / 10 = 0
    · simp [h]
    · simp only [h, if_false]
      rw [ih (n / 10) (Nat.digitChar (n % 10) :: acc),
        ih (n / 10) [Nat.digitChar (n % 10)], List.append_assoc]
      rfl

lemma decodeDec_toDigitsCore : ∀ (f n : Nat), n < 10 ^ f →
    decodeDec (Nat.toDigitsCore 10 f n []) = n := by
  intro f
  induction f with
  | zero =>
    intro n hn
    interval_cases n
    simp [Nat.toDigitsCore, decodeDec]
  | succ f ih =>
    intro n hn
    simp only [Nat.toDigitsCore]
    by_cases h : n / 10 = 0
    · have hn10 : n < 10 := by omega
      have hmod : n % 10 = n := Nat.mod_eq_of_lt hn10
      simp [h, decodeDec, hmod]
      exact charDigit_digitChar n hn10
    · have hdiv : n / 10 < 10 ^ f := by
        have : (10:Nat) ^ (f + 1) = 10 ^ f * 10 := by ring
        exact Nat.div_lt_of_lt_mul (by omega)
      simp only [h, if_false]
      rw [toDigitsCore_append]
      have hmod : n % 10 < 10 := Nat.mod_lt n (by omega)
      simp only [decodeDec, List.foldl_append, List.foldl_cons, List.foldl_nil]
      have := ih (n / 10) hdiv
      simp only [decodeDec] at this
      rw [this, charDigit_digitChar (n % 10) hmod]
      omega

lemma decodeDec_repr (n : Nat) : decodeDec (Nat.repr n).data = n := by
  have hlt : n < 10 ^ (n + 1) := by
    calc n < 10 ^ n := Nat.lt_pow_self (by omega) n
    _ ≤ 10 ^ (n + 1) := Nat.pow_le_pow_right (by omega) (Nat.le_succ n)
  have : (Nat.repr n).data = Nat.toDigitsCore 10 (n + 1) n [] := rfl
  rw [this]
  exact decodeDec_toDigitsCore (n + 1) n hlt

lemma natRepr_inj : Function.Injective Nat.repr := by
  intro m n h
  have : decodeDec (Nat.repr m).data = decodeDec (Nat.repr n).data := by rw [h]
  rwa [decodeDec_repr, decodeDec_repr] at this

/-! ## Data model

`Block` carries exactly the keys of the persisted block dictionaries of
`blockchain.py` (§6 of the design: `index, patient_id, doctor_id,
treatment, timestamp, time_readable, date, previous_hash, hash, is_valid,
block_type`).  The genesis dictionary has no `date` key, so `date` is an
`Option`. -/

structure Block where
  index : Nat
  patient_id : String
  doctor_id : String
  treatment : String
  timestamp : String
  time_readable : String
  date : Option String
  previous_hash : String
  hash : String
  is_valid : Bool
  block_type : String
deriving DecidableEq

/-- One entry of the list returned by `detect_tampering`. -/
structure TamperReport where
  block_index : Nat
  reason : String
  expected : String
  actual : String
deriving DecidableEq

/-- The impure primitives used by `blockchain.py`, abstracted:
`hashlib.sha256(...).hexdigest()`, `time.ctime`, the `strftime` date
rendering, and the JSON encoding/decoding of a chain done by
`json.dump`/`json.load`. -/
structure Env where
  sha256hex : String → String
  ctime : String → String
  strftime : String → String
  serializeChain : List Block → String
  deserializeChain : String → Option (List Block)

/-- `"0" * 64`, the genesis `previous_hash` sentinel. -/
def zeros64 : String := String.mk (List.replicate 64 '0')

/-- `create_hash(data)`: SHA-256 hex digest of the data string. -/
def create_hash (env : Env) (data : String) : String := env.sha256hex data

/-- `create_genesis_block()`.  Note that the source hashes the literal
string `"init"` where the block's `treatment` field holds
`"Blockchain initialized"`. -/
def create_genesis_block (env : Env) (timestamp : String) : Block :=
  { index := 0
    patient_id := "GENESIS"
    doctor_id := "SYSTEM"
    treatment := "Blockchain initialized"
    timestamp := timestamp
    time_readable := env.ctime timestamp
    date := none
    previous_hash := zeros64
    hash := create_hash env ("0|GENESIS|SYSTEM|init|" ++ zeros64 ++ "|" ++ timestamp)
    is_valid := true
    block_type := "GENESIS" }

/-- The data string `f"{index}|{patient_id}|{doctor_id}|{treatment}|{previous_hash}|{timestamp}"`
recomputed from a block's own fields, as in `add_record`, `verify_chain`
and `detect_tampering`. -/
def blockData (b : Block) : String :=
  Nat.repr b.index ++ "|" ++ b.patient_id ++ "|" ++ b.doctor_id ++ "|" ++ b.treatment
    ++ "|" ++ b.previous_hash ++ "|" ++ b.timestamp

/-- `add_record(patient_id, doctor_id, treatment)` on an explicit chain
value (the chain-level core of the source function: lazily create the
genesis block, compute the new block from the tail hash and the next
index, append).  `genesis_ts` and `ts` are the two `time.time()` readings
the source may take (genesis creation and record creation).  Returns the
record hash together with the new chain. -/
def add_record (env : Env) (genesis_ts ts : String)
    (patient_id doctor_id treatment : String) (chain : List Block) :
    String × List Block :=
  let chain1 := if chain.isEmpty then chain ++ [create_genesis_block env genesis_ts] else chain
  match chain1.getLast? with
  | none => ("", chain1)
  | some lastBlock =>
    let previous_hash := lastBlock.hash
    let block_index := chain1.length
    let data := Nat.repr block_index ++ "|" ++ patient_id ++ "|" ++ doctor_id ++ "|"
      ++ treatment ++ "|" ++ previous_hash ++ "|" ++ ts
    let record_hash := create_hash env data
    let block : Block :=
      { index := block_index
        patient_id := patient_id
        doctor_id := doctor_id
        treatment := treatment
        timestamp := ts
        time_readable := env.ctime ts
        date := some (env.strftime ts)
        previous_hash := previous_hash
        hash := record_hash
        is_valid := true
        block_type := "MEDICAL_RECORD" }
    (record_hash, chain1 ++ [block])

/-- The `for i in range(1, len(chain))` loop of `verify_chain`: `prev` is
`chain[i-1]`, the list argument holds `chain[i], chain[i+1], ...`.  The
previous-hash linkage is checked first, then the recomputed hash, with an
early `return False`. -/
def verify_loop (env : Env) : Block → List Block → Bool
  | _, [] => true
  | prev, cur :: rest =>
    if cur.previous_hash ≠ prev.hash then false
    else if create_hash env (blockData cur) ≠ cur.hash then false
    else verify_loop env cur rest

/-- `verify_chain()` on an explicit chain value: empty chain valid, then
the genesis sentinel check, then the pairwise loop. -/
def verify_chain (env : Env) (chain : List Block) : Bool :=
  match chain with
  | [] => true
  | first :: rest =>
    if first.previous_hash ≠ zeros64 then false
    else verify_loop env first rest

/-- The `for i in range(1, len(chain))` loop of `detect_tampering`,
accumulating every discrepancy: the recomputed-hash check appends a
"Hash mismatch" entry, the linkage check a "Previous hash mismatch" entry,
and the loop never stops early.  `i` is the running block index. -/
def detect_loop (env : Env) : Block → List Block → Nat → List TamperReport
  | _, [], _ => []
  | prev, cur :: rest, i =>
    (if create_hash env (blockData cur) ≠ cur.hash then
      [{ block_index := i
         reason := "Hash mismatch"
         expected := create_hash env (blockData cur)
         actual := cur.hash }]
    else []) ++
    (if cur.previous_hash ≠ prev.hash then
      [{ block_index := i
         reason := "Previous hash mismatch"
         expected := prev.hash
         actual := cur.previous_hash }]
    else []) ++
    detect_loop env cur rest (i + 1)

/-- `detect_tampering()` on an explicit chain value. -/
def detect_tampering (env : Env) (chain : List Block) : List TamperReport :=
  match chain with
  | [] => []
  | first :: rest => detect_loop env first rest 1

/-- `get_recent_records(count)`:
`chain[-count:] if len(chain) >= count else chain`.  Python's `[-count:]`
slice is the last `count` elements when `count ≥ 1`, but `[-0:]` is `[0:]`,
the whole list, which the embedding keeps faithfully. -/
def get_recent_records (count : Nat) (chain : List Block) : List Block :=
  if chain.length ≥ count then
    (if count = 0 then chain else chain.drop (chain.length - count))
  else chain

/-! ## Persistence: the Chain Store, modelled on byte strings

`Store` holds the contents of `blockchain_data.json` (primary) and
`blockchain_backup.json` (backup), `none` when the file does not exist.
The `ioError` flag of `save_chain` stands for an I/O exception reaching
its `except` clause, which makes it return `False` instead of raising. -/

structure Store where
  primary : Option String
  backup : Option String
deriving DecidableEq

/-- `load_chain()`: absent file gives an empty chain; unparseable contents
are caught and also give an empty chain. -/
def load_chain (env : Env) (st : Store) : List Block :=
  match st.primary with
  | none => []
  | some bytes =>
    match env.deserializeChain bytes with
    | some chain => chain
    | none => []

/-- `save_chain(chain)`: when the primary file exists, copy its current
bytes to the backup file before writing the serialized chain to the
primary file; return `True`.  On an I/O error return `False`. -/
def save_chain (env : Env) (ioError : Bool) (chain : List Block) (st : Store) :
    Bool × Store :=
  if ioError then (false, st)
  else
    let st1 : Store :=
      match st.primary with
      | some bytes => { st with backup := some bytes }
      | none => st
    (true, { st1 with primary := some (env.serializeChain chain) })

/-- `rollback_to_backup()`: fail when no backup file exists, otherwise
overwrite the primary file with the backup's bytes. -/
def rollback_to_backup (st : Store) : Bool × Store :=
  match st.backup with
  | none => (false, st)
  | some bytes => (true, { st with primary := some bytes })

/-- The full `add_record` pipeline of the source: load the chain from the
store, run the chain-level `add_record`, persist via `save_chain`, and
return the record hash regardless of the save outcome. -/
def add_record_full (env : Env) (ioError : Bool) (genesis_ts ts : String)
    (patient_id doctor_id treatment : String) (st : Store) : String × Store :=
  let chain := load_chain env st
  let rc := add_record env genesis_ts ts patient_id doctor_id treatment chain
  let sv := save_chain env ioError rc.2 st
  (rc.1, sv.2)

/-- Chains reachable from the empty ledger by `add_record` calls alone
(each call's persistence succeeding, so the persisted chain is the
in-memory one). -/
inductive Reachable (env : Env) : List Block → Prop
  | empty : Reachable env []
  | step (genesis_ts ts patient_id doctor_id treatment : String) (c : List Block)
      (h : Reachable env c) :
      Reachable env (add_record env genesis_ts ts patient_id doctor_id treatment c).2

/-! ## Characterizing `verify_chain` -/

/-- The two §3 invariants at adjacent positions `i`, `i+1` of a chain:
linkage of `previous_hash`, and correctness of the stored hash of the
later block. -/
def linkedAt (env : Env) (chain : List Block) (i : Nat) : Prop :=
  ∀ prev, chain[i]? = some prev → ∀ cur, chain[i + 1]? = some cur →
    cur.previous_hash = prev.hash ∧ create_hash env (blockData cur) = cur.hash

lemma verify_loop_iff (env : Env) :
    ∀ (rest : List Block) (prev : Block),
      verify_loop env prev rest = true ↔ ∀ i, linkedAt env (prev :: rest) i := by
  intro rest
  induction rest with
  | nil =>
    intro prev
    simp only [verify_loop, true_iff]
    intro i p hp c hc
    rw [List.getElem?_cons_succ] at hc
    simp at hc
  | cons cur rest ih =>
    intro prev
    constructor
    · intro hv
      by_cases h1 : cur.previous_hash = prev.hash
      case neg => simp [verify_loop, h1] at hv
      by_cases h2 : create_hash env (blockData cur) = cur.hash
      case neg => simp [verify_loop, h1, h2] at hv
      have hrest : verify_loop env cur rest = true := by
        simpa [verify_loop, h1, h2] using hv
      intro i
      match i with
      | 0 =>
        intro p hp c hc
        rw [List.getElem?_cons_zero] at hp
        rw [List.getElem?_cons_succ, List.getElem?_cons_zero] at hc
        cases hp; cases hc
        exact ⟨h1, h2⟩
      | Nat.succ j =>
        intro p hp c hc
        rw [List.getElem?_cons_succ] at hp hc
        exact (ih cur).mp hrest j p hp c hc
    · intro hall
      have h0 := hall 0 prev (by simp) cur (by simp)
      have hrest : verify_loop env cur rest = true := by
        refine (ih cur).mpr ?_
        intro j p hp c hc
        exact hall (j + 1) p (by simpa using hp) c (by simpa using hc)
      simp [verify_loop, h0.1, h0.2, hrest]

/-- `verify_chain` returns `true` exactly when the genesis sentinel holds
(vacuously on the empty chain) and every adjacent pair satisfies both §3
invariants. -/
lemma verify_chain_true_iff (env : Env) (chain : List Block) :
    verify_chain env chain = true ↔
      ((∀ g, chain.head? = some g → g.previous_hash = zeros64) ∧
        ∀ i, linkedAt env chain i) := by
  cases chain with
  | nil =>
    simp only [verify_chain, true_iff, List.head?_nil]
    constructor
    · intro g hg; simp at hg
    · intro i p hp; simp at hp
  | cons g rest =>
    by_cases hg : g.previous_hash = zeros64
    · simp only [verify_chain, hg, ne_eq, not_true_eq_false, if_false, ite_not]
      rw [verify_loop_iff]
      simp [hg]
    · simp only [verify_chain, hg, ne_eq, not_false_eq_true, if_true]
      constructor
      · intro h; simp at h
      · intro h
        exact absurd (h.1 g (by simp)) hg

/-- Appending a block whose `previous_hash` is the tail's hash and whose
stored hash recomputes keeps `verify_loop` succeeding. -/
lemma verify_loop_append (env : Env) :
    ∀ (rest : List Block) (prev lb b : Block),
      verify_loop env prev rest = true →
      (prev :: rest).getLast? = some lb →
      b.previous_hash = lb.hash →
      create_hash env (blockData b) = b.hash →
      verify_loop env prev (rest ++ [b]) = true := by
  intro rest
  induction rest with
  | nil =>
    intro prev lb b _ hlast h1 h2
    simp only [List.getLast?_singleton, Option.some.injEq] at hlast
    cases hlast
    simp [verify_loop, h1, h2]
  | cons cur rest ih =>
    intro prev lb b hv hlast h1 h2
    by_cases hc1 : cur.previous_hash = prev.hash
    case neg => simp [verify_loop, hc1] at hv
    by_cases hc2 : create_hash env (blockData cur) = cur.hash
    case neg => simp [verify_loop, hc1, hc2] at hv
    have hrest : verify_loop env cur rest = true := by
      simpa [verify_loop, hc1, hc2] using hv
    have hlast2 : (cur :: rest).getLast? = some lb := by
      rwa [List.getLast?_cons_cons] at hlast
    have := ih cur lb b hrest hlast2 h1 h2
    simp [verify_loop, hc1, hc2, this]

/-- Appending a correctly linked, correctly hashed block preserves chain
validity. -/
lemma verify_chain_append (env : Env) (chain : List Block) (lb b : Block)
    (hv : verify_chain env chain = true) (hlast : chain.getLast? = some lb)
    (h1 : b.previous_hash = lb.hash)
    (h2 : create_hash env (blockData b) = b.hash) :
    verify_chain env (chain ++ [b]) = true := by
  cases chain with
  | nil => simp at hlast
  | cons g rest =>
    by_cases hg : g.previous_hash = zeros64
    case neg => simp [verify_chain, hg] at hv
    have hloop : verify_loop env g rest = true := by
      simpa [verify_chain, hg] using hv
    have := verify_loop_append env rest g lb b hloop hlast h1 h2
    simp [verify_chain, hg, this]

/-! ## The shape of `add_record`'s result -/

/-- The record block `add_record` builds for a chain whose tail hash is
`previous_hash`, next index `block_index`. -/
def mkRecordBlock (env : Env) (ts patient_id doctor_id treatment : String)
    (previous_hash : String) (block_index : Nat) : Block :=
  { index := block_index
    patient_id := patient_id
    doctor_id := doctor_id
    treatment := treatment
    timestamp := ts
    time_readable := env.ctime ts
    date := some (env.strftime ts)
    previous_hash := previous_hash
    hash := create_hash env (Nat.repr block_index ++ "|" ++ patient_id ++ "|" ++ doctor_id
      ++ "|" ++ treatment ++ "|" ++ previous_hash ++ "|" ++ ts)
    is_valid := true
    block_type := "MEDICAL_RECORD" }

lemma blockData_mkRecordBlock (env : Env) (ts p d t ph : String) (i : Nat) :
    blockData (mkRecordBlock env ts p d t ph i) =
      Nat.repr i ++ "|" ++ p ++ "|" ++ d ++ "|" ++ t ++ "|" ++ ph ++ "|" ++ ts := rfl

lemma hash_mkRecordBlock (env : Env) (ts p d t ph : String) (i : Nat) :
    (mkRecordBlock env ts p d t ph i).hash =
      create_hash env (blockData (mkRecordBlock env ts p d t ph i)) := rfl

/-- `add_record` on the empty ledger: a genesis block appears first, then
the record block at index 1, linked to the genesis hash. -/
lemma add_record_nil (env : Env) (gts ts p d t : String) :
    add_record env gts ts p d t [] =
      ((mkRecordBlock env ts p d t (create_genesis_block env gts).hash 1).hash,
        [create_genesis_block env gts,
          mkRecordBlock env ts p d t (create_genesis_block env gts).hash 1]) := by
  simp [add_record, mkRecordBlock, create_hash]

/-- `add_record` on a non-empty chain with tail `lb` appends one record
block at index `chain.length`. -/
lemma add_record_of_getLast (env : Env) (gts ts p d t : String)
    (chain : List Block) (lb : Block) (hlast : chain.getLast? = some lb) :
    add_record env gts ts p d t chain =
      ((mkRecordBlock env ts p d t lb.hash chain.length).hash,
        chain ++ [mkRecordBlock env ts p d t lb.hash chain.length]) := by
  cases chain with
  | nil => simp at hlast
  | cons g rest =>
    simp [add_record, hlast, mkRecordBlock, create_hash]

/-! ## Invariants of reachable chains -/

lemma reachable_indices (env : Env) (c : List Block) (h : Reachable env c) :
    c.map Block.index = List.range c.length := by
  induction h with
  | empty => rfl
  | step gts ts p d t c _ ih =>
    cases c with
    | nil => simp [add_record_nil, mkRecordBlock, create_genesis_block, List.range_succ]
    | cons g rest =>
      obtain ⟨lb, hlb⟩ : ∃ lb, (g :: rest).getLast? = some lb :=
        Option.isSome_iff_exists.mp (List.getLast?_isSome.mpr (by simp))
      rw [add_record_of_getLast env gts ts p d t (g :: rest) lb hlb]
      simp only [List.map_append, ih, List.length_append]
      simp [mkRecordBlock, List.range_succ]

lemma reachable_verify (env : Env) (c : List Block) (h : Reachable env c) :
    verify_chain env c = true := by
  induction h with
  | empty => rfl
  | step gts ts p d t c _ ih =>
    cases c with
    | nil =>
      rw [add_record_nil]
      simp [verify_chain, verify_loop, create_genesis_block, mkRecordBlock,
        blockData, create_hash]
    | cons g rest =>
      obtain ⟨lb, hlb⟩ : ∃ lb, (g :: rest).getLast? = some lb :=
        Option.isSome_iff_exists.mp (List.getLast?_isSome.mpr (by simp))
      rw [add_record_of_getLast env gts ts p d t (g :: rest) lb hlb]
      exact verify_chain_append env (g :: rest) lb _ ih hlb rfl
        (hash_mkRecordBlock env ts p d t lb.hash (g :: rest).length).symm

/-! ## Single-field edits and the recomputed hash

Changing exactly one of the six hashed fields, all others fixed, changes
the canonical data string: the unchanged fields cancel on both sides of
the `|`-joined concatenation, so the changed field itself must agree (for
the index via injectivity of decimal rendering). -/

lemma blockData_cancel_index (b : Block) (v : Nat)
    (h : blockData { b with index := v } = blockData b) : v = b.index := by
  have hd := congrArg String.data h
  simp only [blockData, String.data_append, List.append_assoc] at hd
  have := List.append_cancel_right hd
  exact natRepr_inj (String.ext this)

lemma blockData_cancel_patient (b : Block) (v : String)
    (h : blockData { b with patient_id := v } = blockData b) : v = b.patient_id := by
  have hd := congrArg String.data h
  simp only [blockData, String.data_append, List.append_assoc,
    List.append_cancel_left_eq] at hd
  have := List.append_cancel_right hd
  exact String.ext this

lemma blockData_cancel_doctor (b : Block) (v : String)
    (h : blockData { b with doctor_id := v } = blockData b) : v = b.doctor_id := by
  have hd := congrArg String.data h
  simp only [blockData, String.data_append, List.append_assoc,
    List.append_cancel_left_eq] at hd
  have := List.append_cancel_right hd
  exact String.ext this

lemma blockData_cancel_treatment (b : Block) (v : String)
    (h : blockData { b with treatment := v } = blockData b) : v = b.treatment := by
  have hd := congrArg String.data h
  simp only [blockData, String.data_append, List.append_assoc,
    List.append_cancel_left_eq] at hd
  have := List.append_cancel_right hd
  exact String.ext this

lemma blockData_cancel_previous (b : Block) (v : String)
    (h : blockData { b with previous_hash := v } = blockData b) : v = b.previous_hash := by
  have hd := congrArg String.data h
  simp only [blockData, String.data_append, List.append_assoc,
    List.append_cancel_left_eq] at hd
  have := List.append_cancel_right hd
  exact String.ext this

lemma blockData_cancel_timestamp (b : Block) (v : String)
    (h : blockData { b with timestamp := v } = blockData b) : v = b.timestamp := by
  have hd := congrArg String.data h
  simp only [blockData, String.data_append, List.append_assoc,
    List.append_cancel_left_eq] at hd
  exact String.ext hd

/-- `bt` is `b` with exactly one of the seven authenticity-relevant
fields (the six hashed fields, or the stored `hash` itself) replaced by a
different value. -/
inductive HashedFieldEdit (b : Block) : Block → Prop
  | index (v : Nat) (hv : v ≠ b.index) : HashedFieldEdit b { b with index := v }
  | patient_id (v : String) (hv : v ≠ b.patient_id) :
      HashedFieldEdit b { b with patient_id := v }
  | doctor_id (v : String) (hv : v ≠ b.doctor_id) :
      HashedFieldEdit b { b with doctor_id := v }
  | treatment (v : String) (hv : v ≠ b.treatment) :
      HashedFieldEdit b { b with treatment := v }
  | previous_hash (v : String) (hv : v ≠ b.previous_hash) :
      HashedFieldEdit b { b with previous_hash := v }
  | timestamp (v : String) (hv : v ≠ b.timestamp) :
      HashedFieldEdit b { b with timestamp := v }
  | hash (v : String) (hv : v ≠ b.hash) : HashedFieldEdit b { b with hash := v }

/-- A block whose stored hash recomputes correctly fails the
recomputation check after any single authenticity-relevant field edit,
provided the digest function is injective. -/
lemma hashedFieldEdit_mismatch (env : Env) (hinj : Function.Injective env.sha256hex)
    (b bt : Block) (hb : create_hash env (blockData b) = b.hash)
    (he : HashedFieldEdit b bt) :
    create_hash env (blockData bt) ≠ bt.hash := by
  cases he with
  | index v hv =>
    intro hcon
    have h1 : create_hash env (blockData { b with index := v }) =
        create_hash env (blockData b) := by rw [hb]; exact hcon
    exact hv (blockData_cancel_index b v (hinj h1))
  | patient_id v hv =>
    intro hcon
    have h1 : create_hash env (blockData { b with patient_id := v }) =
        create_hash env (blockData b) := by rw [hb]; exact hcon
    exact hv (blockData_cancel_patient b v (hinj h1))
  | doctor_id v hv =>
    intro hcon
    have h1 : create_hash env (blockData { b with doctor_id := v }) =
        create_hash env (blockData b) := by rw [hb]; exact hcon
    exact hv (blockData_cancel_doctor b v (hinj h1))
  | treatment v hv =>
    intro hcon
    have h1 : create_hash env (blockData { b with treatment := v }) =
        create_hash env (blockData b) := by rw [hb]; exact hcon
    exact hv (blockData_cancel_treatment b v (hinj h1))
  | previous_hash v hv =>
    intro hcon
    have h1 : create_hash env (blockData { b with previous_hash := v }) =
        create_hash env (blockData b) := by rw [hb]; exact hcon
    exact hv (blockData_cancel_previous b v (hinj h1))
  | timestamp v hv =>
    intro hcon
    have h1 : create_hash env (blockData { b with timestamp := v }) =
        create_hash env (blockData b) := by rw [hb]; exact hcon
    exact hv (blockData_cancel_timestamp b v (hinj h1))
  | hash v hv =>
    intro hcon
    have h1 : blockData { b with hash := v } = blockData b := rfl
    rw [h1, hb] at hcon
    exact hv hcon.symm

/-- The canonical data string of the genesis block differs from the
string the source actually hashes for it (`"init"` stands where the
`treatment` field holds `"Blockchain initialized"`). -/
lemma genesis_blockData_ne (env : Env) (gts : String) :
    blockData (create_genesis_block env gts) ≠
      "0|GENESIS|SYSTEM|init|" ++ zeros64 ++ "|" ++ gts := by
  intro h
  have hd := congrArg String.data h
  simp only [blockData, create_genesis_block, String.data_append] at hd
  exact absurd (List.append_cancel_right hd) (by decide)

/-! ## Characterizing `detect_tampering` -/

/-- The entries §4.4 prescribes for block index `i` with predecessor
`prev`: a "Hash mismatch" entry when the recomputed digest differs from
the stored hash, and a "Previous hash mismatch" entry when the linkage
fails, as separate entries when both occur. -/
def pairEntries (env : Env) (i : Nat) (prev cur : Block) : List TamperReport :=
  (if create_hash env (blockData cur) ≠ cur.hash then
    [{ block_index := i
       reason := "Hash mismatch"
       expected := create_hash env (blockData cur)
       actual := cur.hash }]
  else []) ++
  (if cur.previous_hash ≠ prev.hash then
    [{ block_index := i
       reason := "Previous hash mismatch"
       expected := prev.hash
       actual := cur.previous_hash }]
  else [])

/-- Transcription of the specified behaviour of `detect_tampering`: walk
every adjacent block pair `(chain[i-1], chain[i])` for `i ≥ 1`, without
short-circuiting, collecting all prescribed entries in order. -/
def tamper_report_spec (env : Env) (chain : List Block) : List TamperReport :=
  (List.enumFrom 1 (chain.tail.zip chain)).flatMap
    (fun e => pairEntries env e.1 e.2.2 e.2.1)

lemma detect_loop_eq_spec (env : Env) :
    ∀ (rest : List Block) (prev : Block) (i : Nat),
      detect_loop env prev rest i =
        (List.enumFrom i (rest.zip (prev :: rest))).flatMap
          (fun e => pairEntries env e.1 e.2.2 e.2.1) := by
  intro rest
  induction rest with
  | nil => intro prev i; rfl
  | cons cur rest ih =>
    intro prev i
    show pairEntries env i prev cur ++ detect_loop env cur rest (i + 1) = _
    rw [ih cur (i + 1)]
    rfl

/-- A block whose stored hash fails recomputation yields a "Hash
mismatch" entry at its index, wherever it sits in the loop. -/
lemma detect_loop_mem_hash (env : Env) :
    ∀ (rest : List Block) (prev : Block) (i j : Nat) (cur : Block),
      rest[j]? = some cur →
      create_hash env (blockData cur) ≠ cur.hash →
      { block_index := i + j
        reason := "Hash mismatch"
        expected := create_hash env (blockData cur)
        actual := cur.hash : TamperReport } ∈ detect_loop env prev rest i := by
  intro rest
  induction rest with
  | nil => intro prev i j cur h; simp at h
  | cons c0 rest ih =>
    intro prev i j cur h hne
    match j with
    | 0 =>
      rw [List.getElem?_cons_zero] at h
      cases h
      simp [detect_loop, hne]
    | Nat.succ k =>
      rw [List.getElem?_cons_succ] at h
      have hmem := ih c0 (i + 1) k cur h hne
      have harith : i + (k + 1) = i + 1 + k := by omega
      rw [harith]
      show _ ∈ pairEntries env i prev c0 ++ detect_loop env c0 rest (i + 1)
      exact List.mem_append_right _ hmem

/-- `verify_loop` consumes its predecessor block only through its stored
hash. -/
lemma verify_loop_congr (env : Env) (rest : List Block) (p1 p2 : Block)
    (h : p1.hash = p2.hash) :
    verify_loop env p1 rest = verify_loop env p2 rest := by
  cases rest with
  | nil => rfl
  | cons cur rest => simp only [verify_loop, h]

/-- `detect_loop` consumes its predecessor block only through its stored
hash. -/
lemma detect_loop_congr (env : Env) (rest : List Block) (p1 p2 : Block) (i : Nat)
    (h : p1.hash = p2.hash) :
    detect_loop env p1 rest i = detect_loop env p2 rest i := by
  cases rest with
  | nil => rfl
  | cons cur rest => simp only [detect_loop, h]

/-! ## Small getElem? helpers -/

lemma lt_length_of_getElem?_some {α : Type} (l : List α) (i : Nat) (a : α)
    (h : l[i]? = some a) : i < l.length := by
  by_contra hc
  rw [List.getElem?_eq_none (by omega)] at h
  exact Option.noConfusion h

lemma exists_getElem?_some {α : Type} (l : List α) (i : Nat) (h : i < l.length) :
    ∃ a, l[i]? = some a :=
  ⟨l.get ⟨i, h⟩, by simp [List.getElem?_eq_getElem h]⟩

/-! ## Concrete sample data

A concrete environment whose digest function is the (injective) identity,
and the chains built from the demo records of the source, used to
instantiate the universally quantified theorems and to exhibit concrete
counterexamples. -/

def sampleEnv : Env :=
  { sha256hex := fun s => s
    ctime := fun _ => "ct"
    strftime := fun _ => "dt"
    serializeChain := fun _ => "ser"
    deserializeChain := fun _ => none }

def genesisS : Block := create_genesis_block sampleEnv "10"

def chainS1 : List Block :=
  (add_record sampleEnv "10" "11" "P001" "D001" "Fever|Paracetamol" []).2

def chainS2 : List Block :=
  (add_record sampleEnv "10" "12" "P002" "D001" "Cold|Amoxicillin" chainS1).2

/-- The record block at index 1 of the sample chains. -/
def blockS1 : Block := chainS1.getLastD genesisS

lemma sampleEnv_injective : Function.Injective sampleEnv.sha256hex :=
  fun _ _ h => h

/-! ## The claims -/

/-- C1, counterexample: with the injective identity digest, the genesis
block's stored hash does not equal the digest of the canonical
concatenation of its own fields, because the source hashes the literal
`"init"` where the `treatment` field holds `"Blockchain initialized"`. -/
theorem C1_counterexample :
    create_hash sampleEnv (blockData (create_genesis_block sampleEnv "10")) ≠
      (create_genesis_block sampleEnv "10").hash := by decide

/-- C1 (amended): every record block constructed by `add_record` has a
hash equal to the digest of the canonical `|`-joined concatenation of its
own fields, but the genesis block does not: its hash is the digest of
`0|GENESIS|SYSTEM|init|<64 zeros>|<timestamp>`, with the literal `init`
in place of its `treatment` field, so for an injective digest it always
fails recomputation from its own fields. -/
theorem C1_record_hash_contract (env : Env)
    (hinj : Function.Injective env.sha256hex)
    (gts ts pid did t : String) (c : List Block) :
    (∀ b, ((add_record env gts ts pid did t c).2).getLast? = some b →
      b.hash = create_hash env (blockData b)) ∧
    (create_genesis_block env gts).hash =
      create_hash env ("0|GENESIS|SYSTEM|init|" ++ zeros64 ++ "|" ++ gts) ∧
    (create_genesis_block env gts).hash ≠
      create_hash env (blockData (create_genesis_block env gts)) := by
  refine ⟨?_, rfl, ?_⟩
  · intro b hb
    cases c with
    | nil =>
      rw [add_record_nil] at hb
      simp only [List.getLast?_cons_cons, List.getLast?_singleton,
        Option.some.injEq] at hb
      rw [← hb]
      rfl
    | cons g rest =>
      obtain ⟨lb, hlb⟩ : ∃ lb, (g :: rest).getLast? = some lb :=
        Option.isSome_iff_exists.mp (List.getLast?_isSome.mpr (by simp))
      rw [add_record_of_getLast env gts ts pid did t (g :: rest) lb hlb,
        List.getLast?_concat] at hb
      simp only [Option.some.injEq] at hb
      rw [← hb]
      rfl
  · intro hcon
    have h2 : env.sha256hex ("0|GENESIS|SYSTEM|init|" ++ zeros64 ++ "|" ++ gts) =
        env.sha256hex (blockData (create_genesis_block env gts)) := hcon
    exact genesis_blockData_ne env gts (hinj h2).symm

/-- C1, witness of the amended theorem at the sample environment. -/
theorem C1_witness :
    Function.Injective sampleEnv.sha256hex ∧
    ((∀ b, ((add_record sampleEnv "10" "11" "P001" "D001" "T" []).2).getLast? = some b →
      b.hash = create_hash sampleEnv (blockData b)) ∧
    (create_genesis_block sampleEnv "10").hash =
      create_hash sampleEnv ("0|GENESIS|SYSTEM|init|" ++ zeros64 ++ "|" ++ "10") ∧
    (create_genesis_block sampleEnv "10").hash ≠
      create_hash sampleEnv (blockData (create_genesis_block sampleEnv "10"))) :=
  ⟨sampleEnv_injective,
    C1_record_hash_contract sampleEnv sampleEnv_injective "10" "11" "P001" "D001" "T" []⟩

/-- C3: every chain obtained from the empty chain by `add_record` calls
alone passes `verify_chain`. -/
theorem C3_reachable_chains_verify (env : Env) (c : List Block)
    (h : Reachable env c) : verify_chain env c = true :=
  reachable_verify env c h

/-- C3, witness at a one-record sample chain. -/
theorem C3_witness :
    Reachable sampleEnv chainS1 ∧ verify_chain sampleEnv chainS1 = true :=
  have hr : Reachable sampleEnv chainS1 :=
    Reachable.step "10" "11" "P001" "D001" "Fever|Paracetamol" [] Reachable.empty
  ⟨hr, C3_reachable_chains_verify sampleEnv chainS1 hr⟩

/-- C4: `verify_chain` returns true exactly when the (vacuous on the
empty chain) genesis sentinel check and, for every adjacent pair, first
the `previous_hash` linkage and then the recomputed-digest check all
pass; the source loop checks them in that order and returns false at the
first failure, which in this pure embedding is observable as the
conjunction being false. -/
theorem C4_verify_chain_characterization (env : Env) (chain : List Block) :
    verify_chain env chain = true ↔
      ((∀ g, chain.head? = some g → g.previous_hash = zeros64) ∧
        ∀ i, linkedAt env chain i) :=
  verify_chain_true_iff env chain

/-- C5: `detect_tampering` equals the non-short-circuiting specification
walk: every adjacent pair is examined, each recomputed-hash discrepancy
yields a "Hash mismatch" entry and each linkage discrepancy a
"Previous hash mismatch" entry, as separate entries when both occur at
one index. -/
theorem C5_detect_tampering_full_scan (env : Env) (chain : List Block) :
    detect_tampering env chain = tamper_report_spec env chain := by
  cases chain with
  | nil => rfl
  | cons g rest =>
    show detect_loop env g rest 1 = _
    rw [detect_loop_eq_spec env rest g 1]
    rfl

/-- C7: a failing save returns `false` rather than raising (the source
catches the exception), and `add_record`'s returned hash is unaffected by
the persistence outcome. -/
theorem C7_save_failure_keeps_hash (env : Env) (gts ts pid did t : String)
    (st : Store) (chain : List Block) :
    (save_chain env true chain st).1 = false ∧
    (add_record_full env true gts ts pid did t st).1 =
      (add_record_full env false gts ts pid did t st).1 ∧
    (add_record_full env true gts ts pid did t st).1 =
      (add_record env gts ts pid did t (load_chain env st)).1 :=
  ⟨rfl, rfl, rfl⟩

/-- C8: after two successful saves the backup holds exactly the bytes of
the first save, rollback succeeds and restores the primary artifact to
those bytes, and verification of the reloaded chain agrees with what it
was after the first save. -/
theorem C8_backup_roundtrip (env : Env) (st0 : Store) (c1 c2 : List Block) :
    ((save_chain env false c2 (save_chain env false c1 st0).2).2).backup =
      some (env.serializeChain c1) ∧
    (rollback_to_backup (save_chain env false c2 (save_chain env false c1 st0).2).2).1 =
      true ∧
    ((rollback_to_backup (save_chain env false c2 (save_chain env false c1 st0).2).2).2).primary =
      ((save_chain env false c1 st0).2).primary ∧
    verify_chain env (load_chain env
        (rollback_to_backup (save_chain env false c2 (save_chain env false c1 st0).2).2).2) =
      verify_chain env (load_chain env (save_chain env false c1 st0).2) :=
  ⟨rfl, rfl, rfl, rfl⟩

/-- A block with its four content fields replaced and all other fields
(in particular `previous_hash` and `hash`) unchanged. -/
def contentEdit (g : Block) (p d t ts : String) : Block :=
  { g with
    patient_id := p
    doctor_id := d
    treatment := t
    timestamp := ts }

/-- C10: neither `verify_chain` nor `detect_tampering` recomputes the
genesis block's own hash: arbitrary edits of the genesis content fields
(`patient_id`, `doctor_id`, `treatment`, `timestamp`) that keep its
`previous_hash` and `hash` leave both results unchanged. -/
theorem C10_genesis_content_never_rechecked (env : Env) (g : Block)
    (rest : List Block) (p d t ts : String) :
    verify_chain env (contentEdit g p d t ts :: rest) =
      verify_chain env (g :: rest) ∧
    detect_tampering env (contentEdit g p d t ts :: rest) =
      detect_tampering env (g :: rest) := by
  constructor
  · simp only [verify_chain]
    rw [show (contentEdit g p d t ts).previous_hash = g.previous_hash from rfl,
      verify_loop_congr env rest (contentEdit g p d t ts) g rfl]
  · simp only [detect_tampering]
    exact detect_loop_congr env rest (contentEdit g p d t ts) g 1 rfl

/-- C2 (amended): in a chain passing `verify_chain`, replacing any single
one of the seven authenticity-relevant fields (the six hashed fields or
the stored `hash`) of a block at index `i ≥ 1` makes `verify_chain`
return false and puts a "Hash mismatch" entry for index `i` into
`detect_tampering`, for any injective digest. -/
theorem C2_hashed_field_edit_detected (env : Env)
    (hinj : Function.Injective env.sha256hex) (ch : List Block) (i : Nat)
    (b bt : Block) (hv : verify_chain env ch = true) (hi : 1 ≤ i)
    (hget : ch.get? i = some b) (he : HashedFieldEdit b bt) :
    verify_chain env (ch.set i bt) = false ∧
    ∃ e ∈ detect_tampering env (ch.set i bt),
      e.block_index = i ∧ e.reason = "Hash mismatch" := by
  have hb : ch[i]? = some b := by rwa [List.get?_eq_getElem?] at hget
  obtain ⟨j, rfl⟩ : ∃ j, i = j + 1 := ⟨i - 1, by omega⟩
  have hlen : j + 1 < ch.length := lt_length_of_getElem?_some ch (j + 1) b hb
  have hchar := (verify_chain_true_iff env ch).mp hv
  obtain ⟨p, hp⟩ := exists_getElem?_some ch j (by omega)
  have hbh : create_hash env (blockData b) = b.hash := (hchar.2 j p hp b hb).2
  have hmis : create_hash env (blockData bt) ≠ bt.hash :=
    hashedFieldEdit_mismatch env hinj b bt hbh he
  have hset : (ch.set (j + 1) bt)[j + 1]? = some bt := List.getElem?_set_self hlen
  constructor
  · cases hvt : verify_chain env (ch.set (j + 1) bt) with
    | false => rfl
    | true =>
      exfalso
      have hchar2 := (verify_chain_true_iff env (ch.set (j + 1) bt)).mp hvt
      obtain ⟨p2, hp2⟩ := exists_getElem?_some (ch.set (j + 1) bt) j
        (by simp only [List.length_set]; omega)
      exact hmis (hchar2.2 j p2 hp2 bt hset).2
  · cases ch with
    | nil => simp at hlen
    | cons g rest =>
      rw [show (g :: rest).set (j + 1) bt = g :: rest.set j bt from rfl]
      have hjr : j < rest.length := by
        simp only [List.length_cons] at hlen; omega
      have hrest : (rest.set j bt)[j]? = some bt := List.getElem?_set_self hjr
      have hmem := detect_loop_mem_hash env (rest.set j bt) g 1 j bt hrest hmis
      exact ⟨_, hmem, by show 1 + j = j + 1; omega, rfl⟩

/-- The sample record block with only its display field `time_readable`
changed. -/
def blockS1Display : Block := { blockS1 with time_readable := "edited" }

/-- C2, counterexample to the claim as stated: changing the single field
`time_readable` of the non-genesis block at index 1 of a valid chain
leaves `verify_chain` true and `detect_tampering` empty, because the
display fields (`time_readable`, `date`, `is_valid`, `block_type`) are
not part of the hashed data string. -/
theorem C2_counterexample :
    verify_chain sampleEnv chainS2 = true ∧
    chainS2[1]? = some blockS1 ∧
    blockS1Display ≠ blockS1 ∧
    verify_chain sampleEnv (chainS2.set 1 blockS1Display) = true ∧
    detect_tampering sampleEnv (chainS2.set 1 blockS1Display) = [] := by
  decide

/-- C2, witness of the amended theorem: a treatment edit at index 1 of
the sample chain. -/
theorem C2_witness :
    Function.Injective sampleEnv.sha256hex ∧
    verify_chain sampleEnv chainS2 = true ∧
    1 ≤ 1 ∧
    chainS2.get? 1 = some blockS1 ∧
    HashedFieldEdit blockS1 { blockS1 with treatment := "EDITED" } ∧
    (verify_chain sampleEnv (chainS2.set 1 { blockS1 with treatment := "EDITED" }) = false ∧
      ∃ e ∈ detect_tampering sampleEnv (chainS2.set 1 { blockS1 with treatment := "EDITED" }),
        e.block_index = 1 ∧ e.reason = "Hash mismatch") :=
  ⟨sampleEnv_injective, by decide, by decide, by decide,
    HashedFieldEdit.treatment "EDITED" (by decide),
    C2_hashed_field_edit_detected sampleEnv sampleEnv_injective chainS2 1 blockS1
      { blockS1 with treatment := "EDITED" } (by decide) (by decide) (by decide)
      (HashedFieldEdit.treatment "EDITED" (by decide))⟩

/-- C6: one `add_record` call on a reachable persisted chain grows it to
(number of prior user records) + 2 blocks including genesis, keeps the
indices contiguous `0..len-1`, lazily creates the genesis block and links
the first record to its hash on an empty ledger, and returns exactly the
hash stored in the appended tail block. -/
theorem C6_add_record_shape (env : Env) (gts ts pid did t : String)
    (c : List Block) (hr : Reachable env c) :
    ((add_record env gts ts pid did t c).2).length =
      (if c.isEmpty then 0 else c.length - 1) + 2 ∧
    ((add_record env gts ts pid did t c).2).map Block.index =
      List.range ((add_record env gts ts pid did t c).2).length ∧
    (c = [] → ∃ b, (add_record env gts ts pid did t c).2 =
        [create_genesis_block env gts, b] ∧
      b.previous_hash = (create_genesis_block env gts).hash ∧ b.index = 1 ∧
      (add_record env gts ts pid did t c).1 = b.hash) ∧
    ((add_record env gts ts pid did t c).2.getLast?).map Block.hash =
      some ((add_record env gts ts pid did t c).1) := by
  refine ⟨?_, reachable_indices env _ (Reachable.step gts ts pid did t c hr), ?_, ?_⟩
  · cases c with
    | nil => rw [add_record_nil]; rfl
    | cons g rest =>
      obtain ⟨lb, hlb⟩ : ∃ lb, (g :: rest).getLast? = some lb :=
        Option.isSome_iff_exists.mp (List.getLast?_isSome.mpr (by simp))
      rw [add_record_of_getLast env gts ts pid did t (g :: rest) lb hlb]
      simp only [List.length_append, List.length_cons, List.length_nil,
        List.isEmpty_cons, Bool.false_eq_true, if_false]
      omega
  · intro hc
    subst hc
    rw [add_record_nil]
    exact ⟨mkRecordBlock env ts pid did t (create_genesis_block env gts).hash 1,
      rfl, rfl, rfl, rfl⟩
  · cases c with
    | nil =>
      rw [add_record_nil]
      rfl
    | cons g rest =>
      obtain ⟨lb, hlb⟩ : ∃ lb, (g :: rest).getLast? = some lb :=
        Option.isSome_iff_exists.mp (List.getLast?_isSome.mpr (by simp))
      rw [add_record_of_getLast env gts ts pid did t (g :: rest) lb hlb,
        List.getLast?_concat]
      rfl

/-- C6, witness on the empty ledger. -/
theorem C6_witness :
    Reachable sampleEnv [] ∧
    (((add_record sampleEnv "10" "11" "P001" "D001" "Fever|Paracetamol" []).2).length =
      (if ([] : List Block).isEmpty then 0 else ([] : List Block).length - 1) + 2 ∧
    ((add_record sampleEnv "10" "11" "P001" "D001" "Fever|Paracetamol" []).2).map Block.index =
      List.range ((add_record sampleEnv "10" "11" "P001" "D001" "Fever|Paracetamol" []).2).length ∧
    (([] : List Block) = [] → ∃ b,
        (add_record sampleEnv "10" "11" "P001" "D001" "Fever|Paracetamol" []).2 =
          [create_genesis_block sampleEnv "10", b] ∧
      b.previous_hash = (create_genesis_block sampleEnv "10").hash ∧ b.index = 1 ∧
      (add_record sampleEnv "10" "11" "P001" "D001" "Fever|Paracetamol" []).1 = b.hash) ∧
    ((add_record sampleEnv "10" "11" "P001" "D001" "Fever|Paracetamol" []).2.getLast?).map
        Block.hash =
      some ((add_record sampleEnv "10" "11" "P001" "D001" "Fever|Paracetamol" []).1)) :=
  ⟨Reachable.empty,
    C6_add_record_shape sampleEnv "10" "11" "P001" "D001" "Fever|Paracetamol" []
      Reachable.empty⟩

/-- C9, counterexample to the claim as stated at `n = 0`: the claim
prescribes the last 0 blocks (the empty list), but the code returns the
whole chain, because Python's `chain[-0:]` is `chain[0:]`. -/
theorem C9_counterexample :
    ¬ (get_recent_records 0 chainS1 = chainS1.drop (chainS1.length - 0)) := by
  decide

/-- C9 (amended): for `n ≥ 1`, `get_recent_records n` returns exactly the
last `n` blocks in chain order (the whole chain when it is shorter than
`n`); for `n = 0` it returns the whole chain. -/
theorem C9_recent_records (n : Nat) (c : List Block) (hn : 1 ≤ n) :
    get_recent_records n c = c.drop (c.length - n) ∧
    get_recent_records 0 c = c := by
  constructor
  · by_cases h : c.length ≥ n
    · simp [get_recent_records, h, show n ≠ 0 by omega]
    · have hz : c.length - n = 0 := by omega
      simp [get_recent_records, h, hz]
  · simp [get_recent_records]

/-- C9, witness at `n = 1` on the sample chain. -/
theorem C9_witness :
    1 ≤ 1 ∧ (get_recent_records 1 chainS1 = chainS1.drop (chainS1.length - 1) ∧
      get_recent_records 0 chainS1 = chainS1) :=
  ⟨by decide, C9_recent_records 1 chainS1 (by decide)⟩

end MedLedger
